import Mathlib

/-!
Shallow embedding of the bounded channel in `src/include/channel/channel.hpp`
(`template <typename T, int N> class Channel`), together with its
`select_nb` helper.  The mutex/condition-variable protocol is modelled
sequentially: a blocking call whose wait predicate is false (and which no
other thread can make true within the call) is recorded as `blocked`.
All state mutation happens under the lock in the source, so one C++
operation corresponds to one Lean state transition.
-/

namespace CppChannel

/-- The fields of `Channel<T, N>` that the operations read and write:
`spaces_available_` (an `int`, embedded as `Int`), `receive_pos_`,
`send_pos_`, `buffer_` (a `std::array<T, N>`, embedded as a total map from
indices to `T`; every access in the source is at an index `< N`), and the
`closed_` flag. -/
structure ChannelState (T : Type) (N : Nat) where
  spaces_available : Int
  receive_pos : Nat
  send_pos : Nat
  buffer : Nat → T
  closed : Bool

/-- The default-constructed channel: `spaces_available_{N}`,
`receive_pos_{0}`, `send_pos_{0}`, value-initialized buffer,
`closed_{false}`. -/
def ChannelState.init (T : Type) [Inhabited T] (N : Nat) : ChannelState T N :=
  { spaces_available := (N : Int)
    receive_pos := 0
    send_pos := 0
    buffer := fun _ => default
    closed := false }

variable {T : Type} {N : Nat}

/-- `is_emtpy()` (sic): `spaces_available_.load() == N`. -/
def is_emtpy (s : ChannelState T N) : Bool :=
  s.spaces_available == (N : Int)

/-- `is_full()`: `spaces_available_.load() == 0`. -/
def is_full (s : ChannelState T N) : Bool :=
  s.spaces_available == 0

/-- `is_closed()`: `closed_.load()`. -/
def is_closed (s : ChannelState T N) : Bool :=
  s.closed

/-- `can_terminate()`: `is_closed() && is_emtpy()`. -/
def can_terminate (s : ChannelState T N) : Bool :=
  is_closed s && is_emtpy s

/-- The slot mutation shared by all three `send` overloads and by
`try_send`: `buffer_[pos] = data; send_pos_.store((pos + 1) % N);
spaces_available_.fetch_sub(1);`. -/
def sendAdvance (s : ChannelState T N) (data : T) : ChannelState T N :=
  { s with
    buffer := Function.update s.buffer s.send_pos data
    send_pos := (s.send_pos + 1) % N
    spaces_available := s.spaces_available - 1 }

/-- The slot mutation shared by `receive` and `try_receive`:
read `buffer_[pos]`, `receive_pos_.store((pos + 1) % N)`,
`spaces_available_.fetch_add(1)`. -/
def recvAdvance (s : ChannelState T N) : ChannelState T N :=
  { s with
    receive_pos := (s.receive_pos + 1) % N
    spaces_available := s.spaces_available + 1 }

/-- Outcome of a blocking `send`: the wait never returns (`blocked`),
the `send_after_close` exception is thrown (carrying the channel state
at the throw), or the value is inserted. -/
inductive SendOutcome (T : Type) (N : Nat) where
  | blocked
  | sendAfterClose (s : ChannelState T N)
  | success (s : ChannelState T N)

/-- Outcome of a blocking `receive`: the wait never returns, or the call
returns an `std::optional<T>` together with the channel state after. -/
inductive RecvOutcome (T : Type) (N : Nat) where
  | blocked
  | done (ret : Option T) (s : ChannelState T N)

/-- `Channel::send` (all three overloads perform the same state change):
wait until `!is_full() || closed_`, then throw `send_after_close` if
`closed_`, otherwise perform the slot mutation. -/
def send (s : ChannelState T N) (data : T) : SendOutcome T N :=
  if !(!is_full s || s.closed) then .blocked
  else if s.closed then .sendAfterClose s
  else .success (sendAdvance s data)

/-- `Channel::receive`: wait until `!is_emtpy() || can_terminate()`; if
`can_terminate()` return `std::nullopt` without mutating anything,
otherwise move `buffer_[receive_pos_]` out and advance. -/
def receive [Inhabited T] (s : ChannelState T N) : RecvOutcome T N :=
  if !(!is_emtpy s || can_terminate s) then .blocked
  else if can_terminate s then .done none s
  else .done (some (s.buffer s.receive_pos)) (recvAdvance s)

/-- `Channel::close`: store `true` into `closed_` (the notifications do
not change the state). -/
def close (s : ChannelState T N) : ChannelState T N :=
  { s with closed := true }

/-- `Channel::SendResult`. -/
inductive SendResult where
  | Success
  | Full
  | Closed
deriving DecidableEq

/-- `Channel::RecvResult`. -/
inductive RecvResult where
  | Success
  | Empty
  | Closed
deriving DecidableEq

/-- `Channel::try_send` on the path where `try_to_lock` succeeds (the
lock-contention path is a concurrency artifact outside the sequential
model): `Closed` if `is_closed()`, `Full` if `is_full()`, otherwise the
shared slot mutation and `Success`. -/
def try_send (s : ChannelState T N) (data : T) : SendResult × ChannelState T N :=
  if is_closed s then (.Closed, s)
  else if is_full s then (.Full, s)
  else (.Success, sendAdvance s data)

/-- `Channel::try_receive` on the path where `try_to_lock` succeeds:
`(Closed, nullopt)` if `is_closed()`, `(Empty, nullopt)` if
`is_emtpy()`, otherwise the dequeued value and `Success`. -/
def try_receive [Inhabited T] (s : ChannelState T N) :
    (RecvResult × Option T) × ChannelState T N :=
  if is_closed s then ((.Closed, none), s)
  else if is_emtpy s then ((.Empty, none), s)
  else ((.Success, some (s.buffer s.receive_pos)), recvAdvance s)

/-- Number of occupied slots, `count = N - spaces_available` (the spec's
`count`; the source stores only `spaces_available_`). -/
def count (s : ChannelState T N) : Nat :=
  ((N : Int) - s.spaces_available).toNat

/-- The logical queue contents: the `count s` values starting at
`receive_pos` and wrapping modulo `N`, oldest first. -/
def contents (s : ChannelState T N) : List T :=
  (List.range (count s)).map fun i => s.buffer ((s.receive_pos + i) % N)

/-- The ring-buffer invariant: `0 ≤ spaces_available ≤ N` (equivalently
`0 ≤ count ≤ N`), both indices lie in `[0, N)`, and
`send_pos - receive_pos ≡ count (mod N)`. -/
def RingInv (s : ChannelState T N) : Prop :=
  0 ≤ s.spaces_available ∧ s.spaces_available ≤ (N : Int) ∧
  s.receive_pos < N ∧ s.send_pos < N ∧
  ((s.send_pos : Int) - (s.receive_pos : Int)) % (N : Int) =
    ((N : Int) - s.spaces_available) % (N : Int)

/-- States reachable from the default-constructed channel by the public
operations. -/
inductive Reachable (T : Type) [Inhabited T] (N : Nat) : ChannelState T N → Prop where
  | init : Reachable T N (ChannelState.init T N)
  | send_ok {s s' : ChannelState T N} {d : T} :
      Reachable T N s → send s d = .success s' → Reachable T N s'
  | send_ex {s s' : ChannelState T N} {d : T} :
      Reachable T N s → send s d = .sendAfterClose s' → Reachable T N s'
  | recv {s s' : ChannelState T N} {r : Option T} :
      Reachable T N s → receive s = .done r s' → Reachable T N s'
  | close_op {s : ChannelState T N} :
      Reachable T N s → Reachable T N (close s)
  | try_send_op {s : ChannelState T N} (d : T) :
      Reachable T N s → Reachable T N (try_send s d).2
  | try_recv_op {s : ChannelState T N} :
      Reachable T N s → Reachable T N (try_receive s).2

/-- The loop of `select_nb`: scan the shuffled array of callables and
return the loop counter `i` at the first callable returning `true`,
`-1` if none does.  `ops` gives each original operation's result;
`order` is the shuffled sequence of original indices produced by
`std::shuffle`. -/
def select_nb_go (ops : Nat → Bool) : List Nat → Nat → Int
  | [], _ => -1
  | j :: rest, i => if ops j then (i : Int) else select_nb_go ops rest (i + 1)

/-- `select_nb`: shuffle the callables into the order `order`, then run
the scan loop from index `0`. -/
def select_nb (ops : Nat → Bool) (order : List Nat) : Int :=
  select_nb_go ops order 0

/-- Iterate `receive`, collecting the returned optionals in order; a call
that would block stops the iteration. -/
def receiveN [Inhabited T] : Nat → ChannelState T N → List (Option T) × ChannelState T N
  | 0, s => ([], s)
  | n + 1, s =>
    match receive s with
    | .done r s' =>
      let p := receiveN n s'
      (r :: p.1, p.2)
    | .blocked => ([], s)

/-- Two demo callables for `select_nb`: operation 0 fails, operation 1
succeeds. -/
def demoOps : Nat → Bool := fun j => j == 1

/-- A closed, empty capacity-2 channel over `Nat`. -/
def closedEmptyDemo : ChannelState Nat 2 :=
  { spaces_available := 2, receive_pos := 0, send_pos := 0,
    buffer := fun _ => 0, closed := true }

/-- A closed capacity-2 channel still holding one buffered value, `42`. -/
def closedLoadedDemo : ChannelState Nat 2 :=
  { spaces_available := 1, receive_pos := 0, send_pos := 1,
    buffer := fun j => if j = 0 then 42 else 0, closed := true }

/-- An open capacity-2 channel holding one buffered value, `42`. -/
def openLoadedDemo : ChannelState Nat 2 :=
  { spaces_available := 1, receive_pos := 0, send_pos := 1,
    buffer := fun j => if j = 0 then 42 else 0, closed := false }

/-! ### Arithmetic helpers for the ring congruence -/

lemma emod_sub_shift_left (n a b c : Int) (h : (a - b) % n = c % n) :
    ((a + 1) % n - b) % n = (c + 1) % n := by
  have h1 : Int.ModEq n ((a + 1) % n) (a + 1) :=
    Int.emod_emod_of_dvd (a + 1) dvd_rfl
  have h2 : Int.ModEq n (a - b) c := h
  have h3 : Int.ModEq n (a - b + 1) (c + 1) := h2.add_right 1
  have h4 : Int.ModEq n ((a + 1) % n - b) (a + 1 - b) := h1.sub_right b
  have h5 : a + 1 - b = a - b + 1 := by ring
  exact h4.trans (h5 ▸ h3)

lemma emod_sub_shift_right (n a b c : Int) (h : (a - b) % n = c % n) :
    (a - (b + 1) % n) % n = (c - 1) % n := by
  have h1 : Int.ModEq n ((b + 1) % n) (b + 1) :=
    Int.emod_emod_of_dvd (b + 1) dvd_rfl
  have h2 : Int.ModEq n (a - b) c := h
  have h3 : Int.ModEq n (a - b - 1) (c - 1) := h2.sub_right 1
  have h4 : Int.ModEq n (a - (b + 1) % n) (a - (b + 1)) := h1.sub_left a
  have h5 : a - (b + 1) = a - b - 1 := by ring
  exact h4.trans (h5 ▸ h3)

/-! ### Invariant preservation helpers -/

lemma ringInv_init [Inhabited T] (hN : 0 < N) : RingInv (ChannelState.init T N) := by
  refine ⟨by simp [ChannelState.init], by simp [ChannelState.init], ?_, ?_, ?_⟩ <;>
    simp [ChannelState.init, hN]

lemma ringInv_sendAdvance {s : ChannelState T N} (d : T)
    (hinv : RingInv s) (hf : is_full s = false) : RingInv (sendAdvance s d) := by
  obtain ⟨h0, hle, hrp, hsp, hmod⟩ := hinv
  have hNpos : 0 < N := Nat.lt_of_le_of_lt (Nat.zero_le _) hsp
  have hne : s.spaces_available ≠ 0 := by
    simpa [is_full] using hf
  simp only [RingInv, sendAdvance]
  refine ⟨by omega, by omega, hrp, Nat.mod_lt _ hNpos, ?_⟩
  have hcast : (((s.send_pos + 1) % N : Nat) : Int) =
      ((s.send_pos : Int) + 1) % (N : Int) := by push_cast; ring
  have key := emod_sub_shift_left (N : Int) (s.send_pos : Int)
    (s.receive_pos : Int) ((N : Int) - s.spaces_available) hmod
  rw [hcast, key]
  congr 1
  ring

lemma ringInv_recvAdvance {s : ChannelState T N}
    (hinv : RingInv s) (he : is_emtpy s = false) : RingInv (recvAdvance s) := by
  obtain ⟨h0, hle, hrp, hsp, hmod⟩ := hinv
  have hNpos : 0 < N := Nat.lt_of_le_of_lt (Nat.zero_le _) hrp
  have hne : s.spaces_available ≠ (N : Int) := by
    simpa [is_emtpy] using he
  simp only [RingInv, recvAdvance]
  refine ⟨by omega, by omega, Nat.mod_lt _ hNpos, hsp, ?_⟩
  have hcast : (((s.receive_pos + 1) % N : Nat) : Int) =
      ((s.receive_pos : Int) + 1) % (N : Int) := by push_cast; ring
  have key := emod_sub_shift_right (N : Int) (s.send_pos : Int)
    (s.receive_pos : Int) ((N : Int) - s.spaces_available) hmod
  rw [hcast, key]
  congr 1
  ring

/-! ### Outcome characterizations -/

lemma send_eq_of_closed {s : ChannelState T N} (d : T) (hc : s.closed = true) :
    send s d = .sendAfterClose s := by
  simp [send, hc]

lemma send_eq_of_open {s : ChannelState T N} (d : T) (hc : s.closed = false)
    (hf : is_full s = false) : send s d = .success (sendAdvance s d) := by
  simp [send, hc, hf]

lemma send_success_cases {s s' : ChannelState T N} {d : T}
    (h : send s d = .success s') :
    s.closed = false ∧ is_full s = false ∧ s' = sendAdvance s d := by
  cases hc : s.closed <;> cases hf : is_full s <;>
      simp [send, hc, hf] at h
  exact ⟨rfl, rfl, h.symm⟩

lemma receive_eq_of_terminate [Inhabited T] {s : ChannelState T N}
    (h : can_terminate s = true) : receive s = .done none s := by
  simp [receive, h]

lemma receive_eq_of_nonempty [Inhabited T] {s : ChannelState T N}
    (he : is_emtpy s = false) :
    receive s = .done (some (s.buffer s.receive_pos)) (recvAdvance s) := by
  simp [receive, can_terminate, he]

lemma receive_done_cases [Inhabited T] {s s' : ChannelState T N} {r : Option T}
    (h : receive s = .done r s') :
    (can_terminate s = true ∧ r = none ∧ s' = s) ∨
    (is_emtpy s = false ∧ r = some (s.buffer s.receive_pos) ∧ s' = recvAdvance s) := by
  cases he : is_emtpy s <;> cases hc : s.closed <;>
      simp [receive, can_terminate, is_closed, he, hc] at h
  · exact Or.inr ⟨rfl, h.1.symm, h.2.symm⟩
  · exact Or.inr ⟨rfl, h.1.symm, h.2.symm⟩
  · exact Or.inl ⟨by simp [can_terminate, is_closed, he, hc], h.1.symm, h.2.symm⟩

lemma send_afterClose_state {s s' : ChannelState T N} {d : T}
    (h : send s d = .sendAfterClose s') : s' = s := by
  cases hc : s.closed <;> cases hf : is_full s <;>
      simp [send, hc, hf] at h <;> exact h.symm

/-! ### The logical queue -/

lemma send_pos_eq {s : ChannelState T N} (hinv : RingInv s) :
    s.send_pos = (s.receive_pos + count s) % N := by
  obtain ⟨h0, hle, hrp, hsp, hmod⟩ := hinv
  have hm : ((count s : Nat) : Int) = (N : Int) - s.spaces_available := by
    simp only [count]
    omega
  have h1 : ((s.send_pos : Int) - s.receive_pos) % (N : Int) =
      ((count s : Nat) : Int) % (N : Int) := by
    rw [hm]
    exact hmod
  have h2 : Int.ModEq (N : Int) ((s.send_pos : Int) - s.receive_pos + s.receive_pos)
      (((count s : Nat) : Int) + s.receive_pos) := Int.ModEq.add_right _ h1
  have h3 : Int.ModEq (N : Int) (s.send_pos : Int)
      ((s.receive_pos : Int) + count s) := by
    have e1 : (s.send_pos : Int) - s.receive_pos + s.receive_pos = s.send_pos := by ring
    have e2 : ((count s : Nat) : Int) + s.receive_pos = (s.receive_pos : Int) + count s := by
      ring
    exact e1 ▸ e2 ▸ h2
  have h4 : (s.send_pos : Int) % (N : Int) = (s.send_pos : Int) :=
    Int.emod_eq_of_lt (by positivity) (by exact_mod_cast hsp)
  have h5 : (((s.receive_pos + count s) % N : Nat) : Int) =
      ((s.receive_pos : Int) + count s) % (N : Int) := by
    push_cast
    ring
  have h6 : ((s.send_pos : Nat) : Int) = (((s.receive_pos + count s) % N : Nat) : Int) := by
    rw [h5, ← h3, h4]
  exact_mod_cast h6

lemma mod_index_ne {N rp i m : Nat} (him : i < m) (hmN : m < N) :
    (rp + i) % N ≠ (rp + m) % N := by
  intro h
  have h2 : Nat.ModEq N i m := Nat.ModEq.add_left_cancel' rp h
  have h3 : i % N = m % N := h2
  rw [Nat.mod_eq_of_lt (him.trans hmN), Nat.mod_eq_of_lt hmN] at h3
  omega

lemma contents_snoc {s : ChannelState T N} (d : T)
    (hinv : RingInv s) (hf : is_full s = false) :
    contents (sendAdvance s d) = contents s ++ [d] := by
  obtain ⟨h0, hle, hrp, hsp, hmod⟩ := hinv
  have hne : s.spaces_available ≠ 0 := by simpa [is_full] using hf
  have hmN : count s < N := by
    simp only [count]
    omega
  have htp : s.send_pos = (s.receive_pos + count s) % N :=
    send_pos_eq ⟨h0, hle, hrp, hsp, hmod⟩
  have hcount : count (sendAdvance s d) = count s + 1 := by
    simp only [count, sendAdvance]
    omega
  simp only [contents]
  rw [hcount]
  simp only [sendAdvance]
  rw [List.range_succ, List.map_append]
  congr 1
  · apply List.map_congr_left
    intro i hi
    have him : i < count s := List.mem_range.mp hi
    have hne2 : (s.receive_pos + i) % N ≠ s.send_pos := by
      rw [htp]
      exact mod_index_ne him hmN
    exact Function.update_noteq hne2 d s.buffer
  · simp only [List.map_cons, List.map_nil]
    rw [← htp, Function.update_same]

lemma contents_cons {s : ChannelState T N} (hinv : RingInv s)
    (he : is_emtpy s = false) :
    contents s = s.buffer s.receive_pos :: contents (recvAdvance s) := by
  obtain ⟨h0, hle, hrp, hsp, hmod⟩ := hinv
  have hne : s.spaces_available ≠ (N : Int) := by simpa [is_emtpy] using he
  have hcount : count s = count (recvAdvance s) + 1 := by
    simp only [count, recvAdvance]
    omega
  simp only [contents, hcount, recvAdvance]
  rw [List.range_succ_eq_map, List.map_cons, List.map_map]
  congr 1
  · rw [Nat.add_zero, Nat.mod_eq_of_lt hrp]
  · apply List.map_congr_left
    intro i _
    simp only [Function.comp_apply]
    congr 1
    rw [Nat.mod_add_mod]
    congr 1
    omega

lemma contents_head {s : ChannelState T N} (hinv : RingInv s)
    (he : is_emtpy s = false) :
    (contents s).head? = some (s.buffer s.receive_pos) := by
  rw [contents_cons hinv he]
  rfl

lemma contents_empty {s : ChannelState T N}
    (he : is_emtpy s = true) : contents s = [] := by
  have hN : s.spaces_available = (N : Int) := by simpa [is_emtpy] using he
  have : count s = 0 := by
    simp only [count, hN]
    omega
  simp [contents, this]

lemma drain_spec [Inhabited T] :
    ∀ (m : Nat) (s : ChannelState T N), RingInv s → s.closed = true →
    count s = m →
    (receiveN m s).1 = (contents s).map some ∧
    (receiveN m s).2.closed = true ∧
    is_emtpy (receiveN m s).2 = true ∧
    RingInv (receiveN m s).2 := by
  intro m
  induction m with
  | zero =>
    intro s hinv hc hcount
    obtain ⟨h0, hle, hrp, hsp, hmod⟩ := hinv
    have hsp0 : s.spaces_available = (N : Int) := by
      simp only [count] at hcount
      omega
    have he : is_emtpy s = true := by simp [is_emtpy, hsp0]
    refine ⟨?_, hc, he, ⟨h0, hle, hrp, hsp, hmod⟩⟩
    rw [contents_empty he]
    rfl
  | succ n ih =>
    intro s hinv hc hcount
    have he : is_emtpy s = false := by
      obtain ⟨h0, hle, _, _, _⟩ := hinv
      simp only [count] at hcount
      simp only [is_emtpy, beq_eq_false_iff_ne, ne_eq]
      omega
    have hrecv := receive_eq_of_nonempty (s := s) he
    have hinv' : RingInv (recvAdvance s) := ringInv_recvAdvance hinv he
    have hc' : (recvAdvance s).closed = true := hc
    have hcount' : count (recvAdvance s) = n := by
      obtain ⟨h0, hle, _, _, _⟩ := hinv
      simp only [count, recvAdvance] at hcount ⊢
      omega
    obtain ⟨ih1, ih2, ih3, ih4⟩ := ih (recvAdvance s) hinv' hc' hcount'
    have hstep : receiveN (n + 1) s =
        (some (s.buffer s.receive_pos) :: (receiveN n (recvAdvance s)).1,
         (receiveN n (recvAdvance s)).2) := by
      simp [receiveN, hrecv]
    rw [hstep]
    refine ⟨?_, ih2, ih3, ih4⟩
    rw [contents_cons hinv he, List.map_cons, ih1]

/-! ### Claim theorems -/

/-- C1: the claim fails on the code.  `select_nb` shuffles the array of
callables and then returns the loop position in the *shuffled* array, not
the caller's original index.  With two operations of which only operation
1 succeeds and a shuffle order that tries operation 1 first, `select_nb`
returns 0 — the original index of the operation that failed. -/
theorem select_nb_returns_shuffled_position :
    List.Perm [1, 0] (List.range 2) ∧
    demoOps 0 = false ∧ demoOps 1 = true ∧
    select_nb demoOps [1, 0] = 0 :=
  ⟨by decide, rfl, rfl, rfl⟩

/-- C3: when `closed` is true, `send` throws `send_after_close` and leaves
the state (buffer, positions, count, flag) exactly as it was, regardless
of free slots; when `closed` is false and the buffer is not full, `send`
succeeds. -/
theorem send_close_barrier (s : ChannelState T N) (d : T) :
    (s.closed = true → send s d = .sendAfterClose s) ∧
    (s.closed = false → is_full s = false → ∃ s', send s d = .success s') :=
  ⟨fun hc => send_eq_of_closed d hc,
   fun hc hf => ⟨sendAdvance s d, send_eq_of_open d hc hf⟩⟩

theorem send_close_barrier_witness :
    (send closedEmptyDemo 7 = .sendAfterClose closedEmptyDemo) ∧
    (∃ s', send (ChannelState.init Nat 2) 7 = .success s') :=
  ⟨(send_close_barrier closedEmptyDemo 7).1 rfl,
   (send_close_barrier (ChannelState.init Nat 2) 7).2 rfl rfl⟩

/-- C4: once `closed` is true, every operation leaves `is_closed()` true,
and a second `close` produces a state equal to the one after a single
`close` (for any state at all). -/
theorem closed_is_permanent [Inhabited T] (s : ChannelState T N)
    (hc : is_closed s = true) :
    (∀ (d : T) s', send s d = .sendAfterClose s' → is_closed s' = true) ∧
    (∀ (d : T) s', send s d = .success s' → is_closed s' = true) ∧
    (∀ r s', receive s = .done r s' → is_closed s' = true) ∧
    (∀ d : T, is_closed (try_send s d).2 = true) ∧
    is_closed (try_receive s).2 = true ∧
    is_closed (close s) = true ∧
    close (close s) = close s := by
  have hc' : s.closed = true := hc
  refine ⟨?_, ?_, ?_, ?_, ?_, rfl, rfl⟩
  · intro d s' h
    rw [send_eq_of_closed d hc'] at h
    cases h
    exact hc
  · intro d s' h
    exact absurd (send_success_cases h).1 (by simp [hc'])
  · intro r s' h
    rcases receive_done_cases h with ⟨_, _, hs⟩ | ⟨_, _, hs⟩
    · exact hs ▸ hc
    · subst hs
      exact hc
  · intro d
    simp [try_send, is_closed, hc']
  · simp [try_receive, is_closed, hc']

theorem closed_is_permanent_witness :
    is_closed (try_send closedEmptyDemo 7).2 = true ∧
    is_closed (try_receive closedEmptyDemo).2 = true ∧
    close (close closedEmptyDemo) = close closedEmptyDemo :=
  ⟨(closed_is_permanent closedEmptyDemo rfl).2.2.2.1 7,
   (closed_is_permanent closedEmptyDemo rfl).2.2.2.2.1,
   (closed_is_permanent closedEmptyDemo rfl).2.2.2.2.2.2⟩

/-- C5: on a closed channel `try_send` reports `Closed` (even with free
slots) and `try_receive` reports `(Closed, nullopt)` (even with buffered
values), both leaving the state untouched; and the optional returned by
`try_receive` holds a value exactly when the status is `Success`. -/
theorem try_ops_on_closed [Inhabited T] (s : ChannelState T N) (d : T) :
    (is_closed s = true → try_send s d = (.Closed, s)) ∧
    (is_closed s = true → try_receive s = ((.Closed, none), s)) ∧
    ((∃ v, (try_receive s).1.2 = some v) ↔ (try_receive s).1.1 = .Success) := by
  refine ⟨fun hc => by simp [try_send, hc], fun hc => by simp [try_receive, hc], ?_⟩
  cases hcl : is_closed s <;> cases hem : is_emtpy s <;>
    simp [try_receive, hcl, hem]

theorem try_ops_on_closed_witness :
    try_send closedLoadedDemo 7 = (.Closed, closedLoadedDemo) ∧
    try_receive closedLoadedDemo = ((.Closed, none), closedLoadedDemo) :=
  ⟨(try_ops_on_closed closedLoadedDemo 7).1 rfl,
   (try_ops_on_closed closedLoadedDemo 7).2.1 rfl⟩

/-- C7: a successful `send` on a non-full, non-closed channel writes the
value at `send_pos` (leaving all other slots alone), advances `send_pos`
modulo `N`, decrements `spaces_available` by one (so `count` grows by
one), and leaves `receive_pos` and `closed` unchanged. -/
theorem send_success_effect (s : ChannelState T N) (d : T)
    (hinv : RingInv s) (hc : s.closed = false) (hf : is_full s = false) :
    ∃ s', send s d = .success s' ∧
      s'.buffer s.send_pos = d ∧
      (∀ j, j ≠ s.send_pos → s'.buffer j = s.buffer j) ∧
      s'.send_pos = (s.send_pos + 1) % N ∧
      s'.spaces_available = s.spaces_available - 1 ∧
      count s' = count s + 1 ∧
      s'.receive_pos = s.receive_pos ∧
      s'.closed = s.closed := by
  refine ⟨sendAdvance s d, send_eq_of_open d hc hf, ?_, ?_, rfl, rfl, ?_, rfl, rfl⟩
  · simp [sendAdvance]
  · intro j hj
    simp [sendAdvance, Function.update_noteq hj]
  · obtain ⟨h0, hle, _, _, _⟩ := hinv
    have hne : s.spaces_available ≠ 0 := by simpa [is_full] using hf
    simp only [count, sendAdvance]
    omega

/-- C2: when `receive` returns, the result is absent exactly when the
channel is closed and the buffer empty — and then the state is untouched;
otherwise it carries the oldest buffered element (the head of the logical
queue). -/
theorem receive_exhaustion [Inhabited T] (s : ChannelState T N) (hinv : RingInv s)
    (r : Option T) (s' : ChannelState T N) (h : receive s = .done r s') :
    (r = none ↔ (is_closed s = true ∧ is_emtpy s = true)) ∧
    (r = none → s' = s) ∧
    (∀ v, r = some v → (contents s).head? = some v) := by
  rcases receive_done_cases h with ⟨hct, hr, hs⟩ | ⟨hem, hr, hs⟩
  · subst hr
    have hct' : is_closed s = true ∧ is_emtpy s = true := by
      simpa [can_terminate] using hct
    exact ⟨by simp [hct'.1, hct'.2], fun _ => hs, by simp⟩
  · subst hr
    subst hs
    refine ⟨by simp [hem], by simp, ?_⟩
    intro v hv
    have hv' : v = s.buffer s.receive_pos := (Option.some.inj hv).symm
    rw [hv']
    exact contents_head hinv hem

theorem receive_exhaustion_witness :
    (((none : Option Nat) = none) ↔
      (is_closed closedEmptyDemo = true ∧ is_emtpy closedEmptyDemo = true)) ∧
    ((none : Option Nat) = none → closedEmptyDemo = closedEmptyDemo) ∧
    (∀ v, (none : Option Nat) = some v → (contents closedEmptyDemo).head? = some v) :=
  receive_exhaustion closedEmptyDemo
    ⟨by decide, by decide, by decide, by decide, by decide⟩
    none closedEmptyDemo rfl

/-- C6: `close` changes only the `closed` flag, and after closing, the
`count s` buffered values are returned by successive `receive` calls in
queue order, followed by the first absent result. -/
theorem close_frame_then_drain [Inhabited T] (s : ChannelState T N)
    (hinv : RingInv s) :
    (close s).buffer = s.buffer ∧
    (close s).receive_pos = s.receive_pos ∧
    (close s).send_pos = s.send_pos ∧
    (close s).spaces_available = s.spaces_available ∧
    (receiveN (count s) (close s)).1 = (contents s).map some ∧
    receive (receiveN (count s) (close s)).2 =
      .done none (receiveN (count s) (close s)).2 := by
  have hinvc : RingInv (close s) := hinv
  obtain ⟨h1, h2, h3, _⟩ := drain_spec (count s) (close s) hinvc rfl rfl
  refine ⟨rfl, rfl, rfl, rfl, h1, ?_⟩
  exact receive_eq_of_terminate (by simp [can_terminate, is_closed, h2, h3])

theorem close_frame_then_drain_witness :
    (close openLoadedDemo).buffer = openLoadedDemo.buffer ∧
    (close openLoadedDemo).receive_pos = openLoadedDemo.receive_pos ∧
    (close openLoadedDemo).send_pos = openLoadedDemo.send_pos ∧
    (close openLoadedDemo).spaces_available = openLoadedDemo.spaces_available ∧
    (receiveN (count openLoadedDemo) (close openLoadedDemo)).1 =
      (contents openLoadedDemo).map some ∧
    receive (receiveN (count openLoadedDemo) (close openLoadedDemo)).2 =
      .done none (receiveN (count openLoadedDemo) (close openLoadedDemo)).2 :=
  close_frame_then_drain openLoadedDemo
    ⟨by decide, by decide, by decide, by decide, by decide⟩

/-- C8: the channel is a FIFO queue: a successful `send` appends to the
logical queue, a successful `receive` removes exactly the queue's head,
and on an empty open channel `send v` followed by `receive` yields `v`. -/
theorem fifo_order [Inhabited T] (s : ChannelState T N) (hinv : RingInv s) :
    (∀ (d : T) s', send s d = .success s' → contents s' = contents s ++ [d]) ∧
    (∀ (v : T) s', receive s = .done (some v) s' →
      (contents s).head? = some v ∧ contents s' = (contents s).tail) ∧
    (is_emtpy s = true → s.closed = false → ∀ d : T,
      ∃ s', send s d = .success s' ∧
        ∃ s'', receive s' = .done (some d) s'') := by
  refine ⟨?_, ?_, ?_⟩
  · intro d s' h
    obtain ⟨_, hf, hs⟩ := send_success_cases h
    rw [hs]
    exact contents_snoc d hinv hf
  · intro v s' h
    rcases receive_done_cases h with ⟨_, hr, _⟩ | ⟨hem, hr, hs⟩
    · simp at hr
    · have hv : v = s.buffer s.receive_pos := Option.some.inj hr
      subst hs
      constructor
      · rw [hv]
        exact contents_head hinv hem
      · rw [contents_cons hinv hem]
        rfl
  · intro hem hc d
    obtain ⟨h0, hle, hrp, hsp, hmod⟩ := hinv
    have hspN : s.spaces_available = (N : Int) := by simpa [is_emtpy] using hem
    have hNpos : 0 < N := Nat.lt_of_le_of_lt (Nat.zero_le _) hrp
    have hf : is_full s = false := by
      simp only [is_full, hspN, beq_eq_false_iff_ne, ne_eq]
      omega
    refine ⟨sendAdvance s d, send_eq_of_open d hc hf, ?_⟩
    have hem' : is_emtpy (sendAdvance s d) = false := by
      simp only [is_emtpy, sendAdvance, hspN, beq_eq_false_iff_ne, ne_eq]
      omega
    have hcount0 : count s = 0 := by
      simp only [count, hspN]
      omega
    have htp : s.send_pos = s.receive_pos := by
      have h := send_pos_eq ⟨h0, hle, hrp, hsp, hmod⟩
      rwa [hcount0, Nat.add_zero, Nat.mod_eq_of_lt hrp] at h
    have hbuf : (sendAdvance s d).buffer (sendAdvance s d).receive_pos = d := by
      simp only [sendAdvance, htp]
      exact Function.update_same _ _ _
    refine ⟨recvAdvance (sendAdvance s d), ?_⟩
    rw [receive_eq_of_nonempty hem', hbuf]

theorem fifo_order_witness :
    ∃ s', send (ChannelState.init Nat 2) 42 = .success s' ∧
      ∃ s'', receive s' = .done (some 42) s'' :=
  (fifo_order (ChannelState.init Nat 2)
    ⟨by decide, by decide, by decide, by decide, by decide⟩).2.2 rfl rfl 42

/-- C9: every state reachable from the default-constructed channel
satisfies the ring invariant (`0 ≤ count ≤ N`, both indices in `[0, N)`,
`send_pos - receive_pos ≡ count (mod N)` with
`count = N - spaces_available`), and every operation preserves it. -/
theorem ring_invariant [Inhabited T] (hN : 0 < N) (s : ChannelState T N) :
    (Reachable T N s → RingInv s) ∧
    (RingInv s → ∀ (d : T) s', send s d = .success s' → RingInv s') ∧
    (RingInv s → ∀ (d : T) s', send s d = .sendAfterClose s' → RingInv s') ∧
    (RingInv s → ∀ r s', receive s = .done r s' → RingInv s') ∧
    (RingInv s → RingInv (close s)) ∧
    (RingInv s → ∀ d : T, RingInv (try_send s d).2) ∧
    (RingInv s → RingInv (try_receive s).2) := by
  have hsend : ∀ (t : ChannelState T N) (d : T) s',
      RingInv t → send t d = .success s' → RingInv s' := by
    intro t d s' hinv h
    obtain ⟨_, hf, hs⟩ := send_success_cases h
    exact hs ▸ ringInv_sendAdvance d hinv hf
  have hrecv : ∀ (t : ChannelState T N) r s',
      RingInv t → receive t = .done r s' → RingInv s' := by
    intro t r s' hinv h
    rcases receive_done_cases h with ⟨_, _, hs⟩ | ⟨hem, _, hs⟩
    · exact hs ▸ hinv
    · exact hs ▸ ringInv_recvAdvance hinv hem
  have htrys : ∀ (t : ChannelState T N) (d : T),
      RingInv t → RingInv (try_send t d).2 := by
    intro t d hinv
    cases hcl : is_closed t <;> cases hfl : is_full t <;>
        simp only [try_send, hcl, hfl, Bool.false_eq_true, if_false, if_true]
    · exact ringInv_sendAdvance d hinv hfl
    · exact hinv
    · exact hinv
    · exact hinv
  have htryr : ∀ t : ChannelState T N, RingInv t → RingInv (try_receive t).2 := by
    intro t hinv
    cases hcl : is_closed t <;> cases hem : is_emtpy t <;>
        simp only [try_receive, hcl, hem, Bool.false_eq_true, if_false, if_true]
    · exact ringInv_recvAdvance hinv hem
    · exact hinv
    · exact hinv
    · exact hinv
  have hreach : ∀ t : ChannelState T N, Reachable T N t → RingInv t := by
    intro t ht
    induction ht with
    | init => exact ringInv_init hN
    | send_ok hr h ih => exact hsend _ _ _ ih h
    | send_ex hr h ih => exact (send_afterClose_state h) ▸ ih
    | recv hr h ih => exact hrecv _ _ _ ih h
    | close_op hr ih => exact ih
    | try_send_op d hr ih => exact htrys _ d ih
    | try_recv_op hr ih => exact htryr _ ih
  exact ⟨hreach s,
    fun hinv d s' h => hsend s d s' hinv h,
    fun hinv d s' h => (send_afterClose_state h) ▸ hinv,
    fun hinv r s' h => hrecv s r s' hinv h,
    fun hinv => hinv,
    fun hinv d => htrys s d hinv,
    fun hinv => htryr s hinv⟩

theorem ring_invariant_witness : RingInv (ChannelState.init Nat 2) :=
  (ring_invariant (by decide) (ChannelState.init Nat 2)).1 Reachable.init

theorem send_success_effect_witness :
    ∃ s', send openLoadedDemo 9 = .success s' ∧
      s'.buffer openLoadedDemo.send_pos = 9 ∧
      (∀ j, j ≠ openLoadedDemo.send_pos → s'.buffer j = openLoadedDemo.buffer j) ∧
      s'.send_pos = (openLoadedDemo.send_pos + 1) % 2 ∧
      s'.spaces_available = openLoadedDemo.spaces_available - 1 ∧
      count s' = count openLoadedDemo + 1 ∧
      s'.receive_pos = openLoadedDemo.receive_pos ∧
      s'.closed = openLoadedDemo.closed :=
  send_success_effect openLoadedDemo 9
    ⟨by decide, by decide, by decide, by decide, by decide⟩ rfl rfl

end CppChannel
